import Mathlib

/-!
Shallow embedding of the attachment synchronization queue
(`src/library/powersync/AttachmentQueue.ts`) and proofs about its
reconciliation, query, upload, download and cache-eviction behaviour.

The SQL table is embedded as a list of rows; SQL `ORDER BY` is embedded as
insertion sort on the ordering key; the external storage adapter and remote
blob store are embedded as an explicit environment of response functions;
JavaScript truthiness on optional strings is embedded explicitly
(`null`/`undefined` and `""` are falsy).
-/

set_option maxRecDepth 4000

/-- Attachment lifecycle states. Modelled from the spec: the `AttachmentState`
enum of `AppSchema`, which is not under `src/`; the spec (§3) lists exactly
these four states. -/
inductive AttachmentState where
  | QUEUED_UPLOAD
  | QUEUED_DOWNLOAD
  | QUEUED_SYNC
  | SYNCED
deriving DecidableEq

/-- Attachment record row. Modelled from the spec (§3): the `AttachmentRecord`
row type of `AppSchema`, which is not under `src/`. `local_uri`, `media_type`
and `size` are nullable columns. -/
structure AttachmentRecord where
  id : String
  filename : String
  local_uri : Option String
  media_type : Option String
  size : Option Nat
  state : AttachmentState
  timestamp : Nat
deriving DecidableEq

/-- The attachment table, embedded as its list of rows. -/
abbrev Table := List AttachmentRecord

/-- JavaScript truthiness test on an optional string column:
`null`/`undefined` and the empty string are falsy. -/
def jsFalsy : Option String → Bool
  | none => true
  | some s => s == ""

/-- Modelled from the spec: `FileSystem.documentDirectory` of the external
file-system adapter, a fixed absolute path prefix supplied by the platform. -/
def documentDirectory : String := "file:///data/user/0/app/"

/-- `ATTACHMENT_LOCAL_STORAGE_KEY` (line 7). -/
def ATTACHMENT_LOCAL_STORAGE_KEY : String := "attachments"

/-- `ATTACHMENT_STORAGE_PATH` (line 8). -/
def ATTACHMENT_STORAGE_PATH : String :=
  documentDirectory ++ ATTACHMENT_LOCAL_STORAGE_KEY

/-- `ATTACHMENT_QUEUE_INTERVAL` (line 9): 60 000 ms. -/
def ATTACHMENT_QUEUE_INTERVAL : Nat := 60000

/-- `ATTACHMENT_CACHE_LIMIT` (line 10): 100 records. -/
def ATTACHMENT_CACHE_LIMIT : Nat := 100

/-- `getLocalUri(filename)` (lines 345-347). -/
def getLocalUri (filename : String) : String :=
  ATTACHMENT_STORAGE_PATH ++ "/" ++ filename

/-- The caller-supplied `AttachmentQueueOptions` (lines 12-18); the
`powersync` and `storage` handles are embedded separately as the environment,
and the reconciliation hook as its result list. -/
structure AttachmentQueueOptions where
  getAttachmentIds : Option (List String)
  syncInterval : Option Nat
  cacheLimit : Option Nat

/-- The options as stored on the queue after the constructor ran. -/
structure ResolvedOptions where
  getAttachmentIds : Option (List String)
  syncInterval : Nat
  cacheLimit : Nat

/-- The constructor (lines 25-33): `syncInterval` and `cacheLimit` default to
the module constants via `??` (a supplied `0` is kept). -/
def mkQueue (o : AttachmentQueueOptions) : ResolvedOptions :=
  { getAttachmentIds := o.getAttachmentIds
    syncInterval := o.syncInterval.getD ATTACHMENT_QUEUE_INTERVAL
    cacheLimit := o.cacheLimit.getD ATTACHMENT_CACHE_LIMIT }

/-- The interval `init` hands to `setInterval` (line 59): the constant
`ATTACHMENT_QUEUE_INTERVAL`, whatever the resolved options hold. -/
def initTimerIntervalMs (_opts : ResolvedOptions) : Nat :=
  ATTACHMENT_QUEUE_INTERVAL

/-- `markForSync(ids)` (lines 122-131): a single SQL `UPDATE` setting
`state = QUEUED_SYNC` on every row whose `id` is in the list; a no-op when
the list is empty. -/
def markForSync (ids : List String) (t : Table) : Table :=
  if ids.length > 0 then
    t.map fun r => if r.id ∈ ids then { r with state := .QUEUED_SYNC } else r
  else t

/-- The reconciliation step of `init` (lines 51-54): the hook's result list
(or `[]` when the hook is absent) is passed to `markForSync` when non-empty. -/
def initReconcile (getAttachmentIds : Option (List String)) (t : Table) : Table :=
  let attachmentIds := getAttachmentIds.getD []
  if attachmentIds.length > 0 then markForSync attachmentIds t else t

/-- `update(record)` (lines 106-120): one SQL `UPDATE ... WHERE id = ?`
setting `timestamp = now` and the listed columns; `record.local_uri || null`
turns a falsy `local_uri` into SQL `NULL`. -/
def update (now : Nat) (rec : AttachmentRecord) (t : Table) : Table :=
  t.map fun r =>
    if r.id = rec.id then
      { r with
        timestamp := now
        filename := rec.filename
        local_uri := if jsFalsy rec.local_uri then none else rec.local_uri
        size := rec.size
        media_type := rec.media_type
        state := rec.state }
    else r

/-- Ascending `timestamp` order (SQL `ORDER BY timestamp ASC`). -/
def tsLE (a b : AttachmentRecord) : Prop := a.timestamp ≤ b.timestamp

instance : DecidableRel tsLE := fun a b => Nat.decLe a.timestamp b.timestamp

instance : IsTotal AttachmentRecord tsLE :=
  ⟨fun a b => Nat.le_total a.timestamp b.timestamp⟩

instance : IsTrans AttachmentRecord tsLE :=
  ⟨fun _ _ _ h h2 => Nat.le_trans h h2⟩

/-- Descending `timestamp` order (SQL `ORDER BY timestamp DESC`). -/
def tsGE (a b : AttachmentRecord) : Prop := b.timestamp ≤ a.timestamp

instance : DecidableRel tsGE := fun a b => Nat.decLe b.timestamp a.timestamp

instance : IsTotal AttachmentRecord tsGE :=
  ⟨fun a b => Nat.le_total b.timestamp a.timestamp⟩

instance : IsTrans AttachmentRecord tsGE :=
  ⟨fun _ _ _ h h2 => Nat.le_trans h2 h⟩

/-- SQL `ORDER BY timestamp ASC`, embedded as a stable sort. -/
def sortByTsAsc (l : List AttachmentRecord) : List AttachmentRecord :=
  List.insertionSort tsLE l

/-- SQL `ORDER BY timestamp DESC`, embedded as a stable sort. -/
def sortByTsDesc (l : List AttachmentRecord) : List AttachmentRecord :=
  List.insertionSort tsGE l

/-- The `WHERE` clause of `getNextUploadRecord` (lines 152-164):
`local_uri IS NOT NULL AND (state = QUEUED_UPLOAD OR state = QUEUED_SYNC)`.
SQL `IS NOT NULL` is a null test, not a truthiness test. -/
def uploadEligible (r : AttachmentRecord) : Bool :=
  r.local_uri.isSome &&
    (r.state == .QUEUED_UPLOAD || r.state == .QUEUED_SYNC)

/-- `getNextUploadRecord()` (lines 152-164): `getOptional` returns the first
row of the ordered result set. -/
def getNextUploadRecord (t : Table) : Option AttachmentRecord :=
  (sortByTsAsc (t.filter uploadEligible)).head?

/-- The `WHERE` clause of `getNextDownloadRecords` (lines 166-176):
`state = QUEUED_DOWNLOAD OR state = QUEUED_SYNC` (no `local_uri` filter). -/
def downloadEligible (r : AttachmentRecord) : Bool :=
  r.state == .QUEUED_DOWNLOAD || r.state == .QUEUED_SYNC

/-- `getNextDownloadRecords()` (lines 166-176): `getAll` over the ordered
result set. -/
def getNextDownloadRecords (t : Table) : List AttachmentRecord :=
  sortByTsAsc (t.filter downloadEligible)

/-- Look a row up by `id` (`getOptional` on `SELECT * ... WHERE id = ?`,
lines 68-70). -/
def rowById (t : Table) (i : String) : Option AttachmentRecord :=
  t.find? fun r => r.id == i

/-- Outcome of the remote `storage.uploadFile` primitive: success, rejection
with a `Duplicate` error signal, or any other failure. -/
inductive UploadOutcome where
  | success
  | duplicate
  | failure
deriving DecidableEq

/-- The external collaborators, embedded as response functions: the set of
local files present, whether `readFile` succeeds on a path, the remote
upload outcome per filename, the remote `downloadFile` response per filename
(`some mediaType` on success, `none` for a thrown error), and whether the
local directory-creation/decode/write sequence succeeds on a path. -/
structure Env where
  files : List String
  readOk : String → Bool
  uploadResult : String → UploadOutcome
  remote : String → Option String
  writeOk : String → Bool

/-- An external call issued by a worker step, in issue order. -/
inductive ExtCall where
  | readFile (path : String)
  | uploadFile (name : String)
  | updateRow (i : String)
  | fileExistsQ (path : String)
  | downloadFile (name : String)
  | writeFile (path : String)
deriving DecidableEq

/-- `uploadAttachment(record)` (lines 178-207). Raises when
`!record.local_uri` (JavaScript truthiness). Otherwise reads the local file,
uploads it, and on success or on a `Duplicate` error marks the record
`SYNCED`; returns `true` only on a normal successful upload, `false` on
duplicate, on upload failure and on read failure (all caught). The second
component is the trace of external calls issued. -/
def uploadAttachment (env : Env) (now : Nat) (r : AttachmentRecord) (t : Table) :
    Except Unit (Bool × Table) × List ExtCall :=
  if jsFalsy r.local_uri then (Except.error (), [])
  else
    let uri := r.local_uri.getD ""
    if env.readOk uri then
      match env.uploadResult r.filename with
      | .success =>
          (Except.ok (true, update now { r with state := .SYNCED } t),
           [.readFile uri, .uploadFile r.filename, .updateRow r.id])
      | .duplicate =>
          (Except.ok (false, update now { r with state := .SYNCED } t),
           [.readFile uri, .uploadFile r.filename, .updateRow r.id])
      | .failure =>
          (Except.ok (false, t), [.readFile uri, .uploadFile r.filename])
    else
      (Except.ok (false, t), [.readFile uri])

/-- The drain loop of `uploadRecords` (lines 274-299), with explicit fuel:
fetch the oldest upload candidate; stop when none; call `uploadAttachment`;
a thrown error is caught by the surrounding `try` and ends the pass with the
table untouched; a `false` return breaks the loop; a `true` return continues
with the next fetch. The second component lists the ids attempted, in
order. -/
def uploadLoop (env : Env) (now : Nat) : Nat → Table → Table × List String
  | 0, t => (t, [])
  | fuel + 1, t =>
    match getNextUploadRecord t with
    | none => (t, [])
    | some r =>
      match uploadAttachment env now r t with
      | (Except.error _, _) => (t, [r.id])
      | (Except.ok (true, t2), _) =>
          let rest := uploadLoop env now fuel t2
          (rest.1, r.id :: rest.2)
      | (Except.ok (false, t2), _) => (t2, [r.id])

/-- The `local_uri` a download works with (lines 210-212): derived from the
filename when the stored one is falsy (JavaScript truthiness). -/
def effectiveUri (r : AttachmentRecord) : String :=
  if jsFalsy r.local_uri then getLocalUri r.filename else r.local_uri.getD ""

/-- Result of one `downloadRecord` step: its boolean return, the local file
set afterwards, the table afterwards, and the trace of external calls. -/
structure DownloadStep where
  ok : Bool
  files : List String
  table : Table
  calls : List ExtCall
deriving DecidableEq

/-- `downloadRecord(record)` (lines 209-245). Derives `local_uri` when
falsy; when the file already exists locally, marks the record `SYNCED`
without touching the network; otherwise fetches the remote blob, decodes and
writes it, and marks the record `SYNCED` with the blob's media type; any
exception in that block is caught and returns `false` with the table
untouched. -/
def downloadRecord (env : Env) (now : Nat) (r : AttachmentRecord) (t : Table) :
    DownloadStep :=
  let uri := effectiveUri r
  let r2 := { r with local_uri := some uri }
  if uri ∈ env.files then
    { ok := true
      files := env.files
      table := update now { r2 with state := .SYNCED } t
      calls := [.fileExistsQ uri, .updateRow r.id] }
  else
    match env.remote r.filename with
    | none =>
        { ok := false
          files := env.files
          table := t
          calls := [.fileExistsQ uri, .downloadFile r.filename] }
    | some mt =>
        if env.writeOk uri then
          { ok := true
            files := uri :: env.files
            table := update now { r2 with media_type := some mt, state := .SYNCED } t
            calls := [.fileExistsQ uri, .downloadFile r.filename,
                      .writeFile uri, .updateRow r.id] }
        else
          { ok := false
            files := env.files
            table := t
            calls := [.fileExistsQ uri, .downloadFile r.filename, .writeFile uri] }

/-- Result of a download pass: local file set, table, and the ids processed
(each handed to `downloadRecord`), in order. -/
structure BatchResult where
  files : List String
  table : Table
  processed : List String
deriving DecidableEq

/-- The `for` loop of `downloadRecords` (lines 334-336): each record of the
fetched batch is handed to `downloadRecord` in turn, threading the file set
and the table; a `false` return does not stop the loop. -/
def downloadGo (env : Env) (now : Nat) :
    List AttachmentRecord → List String → Table → BatchResult
  | [], files, t => { files := files, table := t, processed := [] }
  | r :: rs, files, t =>
    let step := downloadRecord { env with files := files } now r t
    let rest := downloadGo env now rs step.files step.table
    { rest with processed := r.id :: rest.processed }

/-- `downloadRecords()` (lines 323-343): fetch the candidate batch once,
then drain it sequentially. -/
def downloadRecords (env : Env) (now : Nat) (t : Table) : BatchResult :=
  downloadGo env now (getNextDownloadRecords t) env.files t

/-- The rows `expireCache` selects (lines 363-368): `SYNCED` rows ordered by
`timestamp DESC`, `LIMIT 100 OFFSET cacheLimit`. -/
def querySyncedBeyondLimit (cacheLimit : Nat) (t : Table) : List AttachmentRecord :=
  (((sortByTsDesc (t.filter fun r => r.state == .SYNCED))).drop cacheLimit).take 100

/-- The path `delete` hands to `storage.deleteFile` (line 149):
`record.local_uri || getLocalUri(record.filename)` (JavaScript truthiness). -/
def deleteFilePath (r : AttachmentRecord) : String :=
  if jsFalsy r.local_uri then getLocalUri r.filename else r.local_uri.getD ""

/-- `expireCache()` (lines 362-380): select the `SYNCED` rows beyond the
`cacheLimit` most recent (capped at 100 by the SQL `LIMIT`); when the
selection is empty, return; otherwise delete each selected row by id inside
one write transaction and each backing file. Returns the table afterwards and
the file paths deleted. -/
def expireCache (cacheLimit : Nat) (t : Table) : Table × List String :=
  let res := querySyncedBeyondLimit cacheLimit t
  if res.length = 0 then (t, [])
  else
    (t.filter fun r => decide (r.id ∉ (res.map fun s => s.id)),
     res.map deleteFilePath)

/-- How many `SYNCED` rows of the table were touched more recently than `r`
(spec language for recency rank: `r` is among the `limit` most-recently-touched
synced rows exactly when this count is below `limit`). -/
def moreRecentSyncedCount (t : Table) (r : AttachmentRecord) : Nat :=
  (t.filter fun s => s.state == .SYNCED && r.timestamp < s.timestamp).length

/-- Modelled from the spec, for comparison with `expireCache`: eviction
"deletes exactly the `count(SYNCED) - cacheLimit` oldest-by-timestamp synced
records ... and leaves the `cacheLimit` most recent untouched", i.e. the
survivors are the non-synced rows and the `cacheLimit` most-recently-touched
synced rows. -/
def expireCacheSpec (cacheLimit : Nat) (t : Table) : Table :=
  t.filter fun r =>
    !(r.state == .SYNCED) || decide (moreRecentSyncedCount t r < cacheLimit)

/-- The per-row effect of `markForSync`, named for the lemmas below. -/
def markRow (ids : List String) (r : AttachmentRecord) : AttachmentRecord :=
  if r.id ∈ ids then { r with state := .QUEUED_SYNC } else r

/-- The per-row effect of `update` on the matching row, named for the lemmas
below. -/
def applyUpdate (now : Nat) (rec : AttachmentRecord) (r : AttachmentRecord) :
    AttachmentRecord :=
  { r with
    timestamp := now
    filename := rec.filename
    local_uri := if jsFalsy rec.local_uri then none else rec.local_uri
    size := rec.size
    media_type := rec.media_type
    state := rec.state }

/-- The row produced by `downloadRecord`'s already-downloaded short circuit:
the matching row after `update` ran with the derived `local_uri` and state
`SYNCED`. -/
def downloadShortCircuit (now : Nat) (r : AttachmentRecord) : AttachmentRecord :=
  applyUpdate now
    { r with local_uri := some (effectiveUri r), state := .SYNCED } r

/-- Concrete row for the reconciliation scenario: the one record present
locally, already `SYNCED`. -/
def xrecC1 : AttachmentRecord :=
  { id := "x", filename := "x.jpg", local_uri := some "file:///data/x.jpg",
    media_type := none, size := none, state := .SYNCED, timestamp := 5 }

/-- Concrete table of 101 `SYNCED` rows with distinct ids and timestamps. -/
def cexTable : Table :=
  (List.range 101).map fun i =>
    { id := String.mk [Char.ofNat (65 + i)], filename := "f",
      local_uri := none, media_type := none, size := none,
      state := .SYNCED, timestamp := i }

/-- Concrete table of 150 `SYNCED` rows with distinct ids and timestamps
(the spec's 150-record eviction scenario). -/
def tbl150 : Table :=
  (List.range 150).map fun i =>
    { id := String.mk [Char.ofNat (65 + i)], filename := "f",
      local_uri := none, media_type := none, size := none,
      state := .SYNCED, timestamp := i }

/-- Environment whose remote upload always reports a duplicate object. -/
def envDupE : Env :=
  { files := [], readOk := fun _ => true,
    uploadResult := fun _ => .duplicate,
    remote := fun _ => none, writeOk := fun _ => true }

/-- Environment whose remote upload always fails for a non-duplicate
reason. -/
def envFailE : Env :=
  { files := [], readOk := fun _ => true,
    uploadResult := fun _ => .failure,
    remote := fun _ => none, writeOk := fun _ => true }

/-- Concrete upload candidate, oldest in the queue. -/
def raE : AttachmentRecord :=
  { id := "a", filename := "a.jpg", local_uri := some "file:///data/a.jpg",
    media_type := none, size := none, state := .QUEUED_UPLOAD, timestamp := 1 }

/-- Concrete upload candidate queued after `raE`. -/
def rbE : AttachmentRecord :=
  { id := "b", filename := "b.jpg", local_uri := some "file:///data/b.jpg",
    media_type := none, size := none, state := .QUEUED_UPLOAD, timestamp := 2 }

/-- Concrete record whose `local_uri` is the empty string (non-null but
JavaScript-falsy). -/
def rEmptyU : AttachmentRecord :=
  { id := "e", filename := "e.jpg", local_uri := some "",
    media_type := none, size := none, state := .QUEUED_UPLOAD, timestamp := 1 }

/-- Concrete record whose `local_uri` is null. -/
def rNoneU : AttachmentRecord :=
  { id := "n", filename := "n.jpg", local_uri := none,
    media_type := none, size := none, state := .QUEUED_UPLOAD, timestamp := 1 }

/-- Concrete download candidates: first of the batch. -/
def rd1C6 : AttachmentRecord :=
  { id := "d1", filename := "d1.jpg", local_uri := some "file:///data/d1.jpg",
    media_type := none, size := none, state := .QUEUED_DOWNLOAD, timestamp := 1 }

/-- Concrete download candidate whose remote fetch throws. -/
def rdFC6 : AttachmentRecord :=
  { id := "df", filename := "df.jpg", local_uri := some "file:///data/df.jpg",
    media_type := none, size := none, state := .QUEUED_DOWNLOAD, timestamp := 2 }

/-- Concrete download candidate after the failing one. -/
def rd3C6 : AttachmentRecord :=
  { id := "d3", filename := "d3.jpg", local_uri := some "file:///data/d3.jpg",
    media_type := none, size := none, state := .QUEUED_DOWNLOAD, timestamp := 3 }

/-- Concrete download batch table. -/
def tblC6 : Table := [rd1C6, rdFC6, rd3C6]

/-- Environment for the download batch: no local files, remote fetch throws
exactly on the middle record's filename. -/
def envC6 : Env :=
  { files := [], readOk := fun _ => true,
    uploadResult := fun _ => .success,
    remote := fun n => if n == "df.jpg" then none else some "image/jpeg",
    writeOk := fun _ => true }

/-- Environment for the download batch: no local files, every remote fetch
succeeds, but the decode/write sequence throws exactly on the middle
record's local path. -/
def envC6w : Env :=
  { files := [], readOk := fun _ => true,
    uploadResult := fun _ => .success,
    remote := fun _ => some "image/jpeg",
    writeOk := fun p => !(p == "file:///data/df.jpg") }

/-- Concrete download candidate whose file is already present locally. -/
def rdlC7 : AttachmentRecord :=
  { id := "d", filename := "d.jpg", local_uri := some "file:///data/d.jpg",
    media_type := none, size := none, state := .QUEUED_DOWNLOAD, timestamp := 4 }

/-- Environment for the idempotence scenario: the candidate's file already
exists locally. -/
def envC7 : Env :=
  { files := ["file:///data/d.jpg"], readOk := fun _ => true,
    uploadResult := fun _ => .success,
    remote := fun _ => some "image/jpeg", writeOk := fun _ => true }

/-- Concrete options supplying `syncInterval = 5000`. -/
def opts5000 : AttachmentQueueOptions :=
  { getAttachmentIds := none, syncInterval := some 5000, cacheLimit := none }

/-- Concrete options supplying `syncInterval = 0` (the spec's
"disable periodic sync" value). -/
def opts0 : AttachmentQueueOptions :=
  { getAttachmentIds := none, syncInterval := some 0, cacheLimit := none }

/-- Concrete options supplying nothing. -/
def optsNone : AttachmentQueueOptions :=
  { getAttachmentIds := none, syncInterval := none, cacheLimit := none }

/-- Concrete options supplying `cacheLimit = 0` (kept by the constructor's
`??`). -/
def optsCache0 : AttachmentQueueOptions :=
  { getAttachmentIds := none, syncInterval := none, cacheLimit := some 0 }

/-- Concrete synced row for the query-invariant scenario. -/
def srecC8 : AttachmentRecord :=
  { id := "s", filename := "s.jpg", local_uri := some "file:///data/s.jpg",
    media_type := none, size := none, state := .SYNCED, timestamp := 1 }

/-- Concrete download candidate with null `local_uri` for the
query-invariant scenario. -/
def qrecC8 : AttachmentRecord :=
  { id := "q", filename := "q.jpg", local_uri := none,
    media_type := none, size := none, state := .QUEUED_DOWNLOAD, timestamp := 3 }

/-- Concrete table for the query-invariant scenario: one synced row, one
upload candidate, one download candidate whose `local_uri` is null. -/
def twC8 : Table := [srecC8, raE, qrecC8]

/-! ## General lemmas about the embedded operations -/

theorem markForSync_eq_map (ids : List String) (t : Table) :
    markForSync ids t = t.map (markRow ids) := by
  unfold markForSync markRow
  by_cases h : ids.length > 0
  · simp [h]
  · have hnil : ids = [] := List.eq_nil_of_length_eq_zero (Nat.eq_zero_of_not_pos h)
    subst hnil
    simp

theorem markRow_id (ids : List String) (r : AttachmentRecord) :
    (markRow ids r).id = r.id := by
  unfold markRow
  by_cases h : r.id ∈ ids <;> simp [h]

theorem update_eq_map (now : Nat) (rec : AttachmentRecord) (t : Table) :
    update now rec t = t.map fun r => if r.id = rec.id then applyUpdate now rec r else r :=
  rfl

theorem applyUpdate_id (now : Nat) (rec r : AttachmentRecord) :
    (applyUpdate now rec r).id = r.id :=
  rfl

theorem rowById_cons (s : AttachmentRecord) (l : Table) (i : String) :
    rowById (s :: l) i = if s.id == i then some s else rowById l i := by
  by_cases h : s.id == i
  · simp [rowById, List.find?_cons_of_pos, h]
  · simp only [Bool.not_eq_true] at h
    simp [rowById, List.find?_cons_of_neg, h]

theorem update_cons (now : Nat) (rec s : AttachmentRecord) (l : Table) :
    update now rec (s :: l)
      = (if s.id = rec.id then applyUpdate now rec s else s) :: update now rec l :=
  rfl

theorem rowById_update_of_ne (now : Nat) (rec : AttachmentRecord) (t : Table)
    (i : String) (h : i ≠ rec.id) :
    rowById (update now rec t) i = rowById t i := by
  induction t with
  | nil => rfl
  | cons s rest ih =>
    rw [update_cons, rowById_cons, rowById_cons]
    have hid : (if s.id = rec.id then applyUpdate now rec s else s).id = s.id := by
      by_cases hs : s.id = rec.id <;> simp [hs, applyUpdate_id]
    rw [hid]
    by_cases hsi : s.id == i
    · have hsi' : s.id = i := by simpa [beq_iff_eq] using hsi
      have hs : ¬(s.id = rec.id) := fun he => h (hsi' ▸ he)
      simp [hsi, hs]
    · simp only [Bool.not_eq_true] at hsi
      simp [hsi, ih]

theorem rowById_update_self (now : Nat) (rec : AttachmentRecord) (t : Table)
    (r : AttachmentRecord) (h : rowById t rec.id = some r) :
    rowById (update now rec t) rec.id = some (applyUpdate now rec r) := by
  induction t with
  | nil => simp [rowById] at h
  | cons s rest ih =>
    rw [rowById_cons] at h
    rw [update_cons, rowById_cons]
    have hid : (if s.id = rec.id then applyUpdate now rec s else s).id = s.id := by
      by_cases hs : s.id = rec.id <;> simp [hs, applyUpdate_id]
    rw [hid]
    by_cases hsi : s.id == rec.id
    · have hsr : s = r := by simpa [hsi] using h
      have hs : s.id = rec.id := by simpa [beq_iff_eq] using hsi
      subst hsr
      simp [hsi, hs]
    · simp only [Bool.not_eq_true] at hsi
      simp only [hsi, Bool.false_eq_true, if_false] at h ⊢
      exact ih h

/-- C3: the periodic timer does not honor the configured interval — the
constructor resolves `syncInterval` (a supplied value, `0` included, is kept;
otherwise 60000), but `init` hands the constant `ATTACHMENT_QUEUE_INTERVAL`
to `setInterval`, so the timer fires every 60000 ms whatever was
configured. -/
theorem initTimer_ignores_syncInterval :
    (mkQueue opts5000).syncInterval = 5000
    ∧ (mkQueue opts0).syncInterval = 0
    ∧ (mkQueue optsNone).syncInterval = 60000
    ∧ initTimerIntervalMs (mkQueue opts5000) = 60000
    ∧ initTimerIntervalMs (mkQueue opts0) = 60000 :=
  ⟨rfl, rfl, rfl, rfl, rfl⟩

/-- C1 counterexample: reconciliation with `["x", "y"]` where only `"x"`
exists locally marks `"x"` as `QUEUED_SYNC` but does NOT insert a row for
`"y"` — `markForSync` issues a single `UPDATE` and inserts nothing. -/
theorem markForSync_missing_id_not_inserted :
    (markForSync ["x", "y"] [xrecC1]).map (fun r => r.id) = ["x"]
    ∧ (∀ r ∈ markForSync ["x", "y"] [xrecC1], r.id ≠ "y")
    ∧ (∀ r ∈ markForSync ["x", "y"] [xrecC1], r.state = .QUEUED_SYNC) := by
  decide

/-- C1 (amended): reconciliation marks every listed id that is present in
the table as `QUEUED_SYNC`, leaving its other columns and all unlisted rows
unchanged; ids not present locally are NOT inserted — the result has exactly
the ids of the input table. `init` applies exactly this to the hook's
list. -/
theorem markForSync_marks_present_ids (ids : List String) (t : Table) :
    ((markForSync ids t).map (fun r => r.id) = t.map (fun r => r.id))
    ∧ (∀ r ∈ markForSync ids t, r.id ∈ ids → r.state = .QUEUED_SYNC)
    ∧ (∀ r ∈ markForSync ids t, r.id ∉ ids → r ∈ t)
    ∧ (∀ r ∈ t, r.id ∈ ids →
        { r with state := AttachmentState.QUEUED_SYNC } ∈ markForSync ids t)
    ∧ (∀ r ∈ t, r.id ∉ ids → r ∈ markForSync ids t)
    ∧ initReconcile (some ids) t = markForSync ids t := by
  refine ⟨?_, ?_, ?_, ?_, ?_, ?_⟩
  · rw [markForSync_eq_map, List.map_map]
    exact List.map_congr_left fun r _ => markRow_id ids r
  · intro r hr hid
    rw [markForSync_eq_map] at hr
    obtain ⟨s, _, hs⟩ := List.mem_map.mp hr
    unfold markRow at hs
    by_cases hsid : s.id ∈ ids
    · rw [if_pos hsid] at hs
      rw [← hs]
    · rw [if_neg hsid] at hs
      exact absurd (hs ▸ hid) hsid
  · intro r hr hid
    rw [markForSync_eq_map] at hr
    obtain ⟨s, hsmem, hs⟩ := List.mem_map.mp hr
    unfold markRow at hs
    by_cases hsid : s.id ∈ ids
    · rw [if_pos hsid] at hs
      exact absurd (hs ▸ hsid) hid
    · rw [if_neg hsid] at hs
      exact hs ▸ hsmem
  · intro r hr hid
    rw [markForSync_eq_map]
    have : markRow ids r = { r with state := AttachmentState.QUEUED_SYNC } := by
      unfold markRow
      rw [if_pos hid]
    exact this ▸ List.mem_map_of_mem (markRow ids) hr
  · intro r hr hid
    rw [markForSync_eq_map]
    have : markRow ids r = r := by
      unfold markRow
      rw [if_neg hid]
    exact this ▸ List.mem_map_of_mem (markRow ids) hr
  · unfold initReconcile markForSync
    by_cases h : ids.length > 0 <;> simp [h]

/-- C1 witness: the amended statement instantiated at the scenario table —
the present id `"x"` is marked `QUEUED_SYNC` and the table's id set is
unchanged. -/
theorem markForSync_marks_present_ids_witness :
    ({ xrecC1 with state := AttachmentState.QUEUED_SYNC }
        ∈ markForSync ["x", "y"] [xrecC1])
    ∧ (markForSync ["x", "y"] [xrecC1]).map (fun r => r.id)
        = [xrecC1].map (fun r => r.id) :=
  ⟨(markForSync_marks_present_ids ["x", "y"] [xrecC1]).2.2.2.1 xrecC1
      (by decide) (by decide),
   (markForSync_marks_present_ids ["x", "y"] [xrecC1]).1⟩

/-- C9 counterexample: a record whose `local_uri` is the empty string is not
null, yet `uploadAttachment` raises on it — the guard `!record.local_uri` is
a JavaScript truthiness test, so the raise condition is not "null" alone. -/
theorem uploadAttachment_raises_on_nonnull_empty_uri :
    rEmptyU.local_uri ≠ none
    ∧ (uploadAttachment envFailE 0 rEmptyU []).1 = Except.error () :=
  ⟨by decide, rfl⟩

/-- C9 (amended): `uploadAttachment` raises exactly when the record's
`local_uri` is JavaScript-falsy — null or the empty string — and when it
raises it does so before any storage read, remote upload, or database
update: the external-call trace is empty and no table is produced, so the
row is untouched; such a record is never silently skipped. -/
theorem uploadAttachment_raises_iff_falsy_uri (env : Env) (now : Nat)
    (r : AttachmentRecord) (t : Table) :
    ((uploadAttachment env now r t).1 = Except.error ()
        ↔ (r.local_uri = none ∨ r.local_uri = some ""))
    ∧ ((r.local_uri = none ∨ r.local_uri = some "") →
        uploadAttachment env now r t = (Except.error (), [])) := by
  by_cases hf : jsFalsy r.local_uri = true
  · have hcase : r.local_uri = none ∨ r.local_uri = some "" := by
      cases hu : r.local_uri with
      | none => exact Or.inl rfl
      | some s =>
        right
        have hs : s = "" := by simpa [jsFalsy, hu, beq_iff_eq] using hf
        rw [hs]
    refine ⟨⟨fun _ => hcase, fun _ => ?_⟩, fun _ => ?_⟩ <;>
      simp [uploadAttachment, hf]
  · have hcase : ¬(r.local_uri = none ∨ r.local_uri = some "") := by
      intro hc
      cases hc with
      | inl h => simp [jsFalsy, h] at hf
      | inr h => simp [jsFalsy, h] at hf
    refine ⟨⟨fun herr => ?_, fun hc => absurd hc hcase⟩,
      fun hc => absurd hc hcase⟩
    exfalso
    have hok : (uploadAttachment env now r t).1 ≠ Except.error () := by
      unfold uploadAttachment
      rw [if_neg hf]
      cases hro : env.readOk (r.local_uri.getD "") with
      | false => simp [hro]
      | true => cases hup : env.uploadResult r.filename <;> simp [hro, hup]
    exact hok herr

/-- C9 witness: the amended statement instantiated at a null-`local_uri`
record — the call raises with an empty trace. -/
theorem uploadAttachment_raises_iff_falsy_uri_witness :
    uploadAttachment envFailE 0 rNoneU [] = (Except.error (), []) :=
  (uploadAttachment_raises_iff_falsy_uri envFailE 0 rNoneU []).2 (Or.inl rfl)

/-- C4 counterexample: with two queued candidates and a duplicate signal on
the first, the pass attempts only the first — the second, although a
still-eligible upload candidate, stays `QUEUED_UPLOAD` — because
`uploadAttachment` returns `false` on duplicate and `uploadRecords` breaks;
the claim's "proceeds to the next candidate as after a normal successful
upload" fails. -/
theorem uploadLoop_duplicate_does_not_advance :
    (uploadLoop envDupE 9 5 [raE, rbE]).2 = ["a"]
    ∧ uploadEligible rbE = true
    ∧ (rowById (uploadLoop envDupE 9 5 [raE, rbE]).1 "b").map (fun s => s.state)
        = some .QUEUED_UPLOAD
    ∧ (rowById (uploadLoop envDupE 9 5 [raE, rbE]).1 "a").map (fun s => s.state)
        = some .SYNCED := by
  decide

/-- C4 (amended): on a remote duplicate-object signal the record transitions
to `SYNCED` and no error is raised, but `uploadAttachment` returns `false`,
so the upload pass stops after this record — it does not proceed to the next
candidate within the same pass; the remaining queue waits for the next
trigger. -/
theorem uploadAttachment_duplicate_synced_halts (env : Env) (now : Nat)
    (r : AttachmentRecord) (t : Table) (fuel : Nat)
    (hr : getNextUploadRecord t = some r)
    (hfalsy : jsFalsy r.local_uri = false)
    (hread : env.readOk (r.local_uri.getD "") = true)
    (hdup : env.uploadResult r.filename = .duplicate) :
    uploadAttachment env now r t
      = (Except.ok (false, update now { r with state := .SYNCED } t),
         [.readFile (r.local_uri.getD ""), .uploadFile r.filename,
          .updateRow r.id])
    ∧ uploadLoop env now (fuel + 1) t
      = (update now { r with state := .SYNCED } t, [r.id]) := by
  have h1 : uploadAttachment env now r t
      = (Except.ok (false, update now { r with state := .SYNCED } t),
         [.readFile (r.local_uri.getD ""), .uploadFile r.filename,
          .updateRow r.id]) := by
    unfold uploadAttachment
    rw [if_neg (by simp [hfalsy])]
    rw [if_pos hread, hdup]
  refine ⟨h1, ?_⟩
  simp only [uploadLoop, hr, h1]

/-- C4 witness: the amended statement instantiated at a single-candidate
queue with a duplicate signal — the pass marks it `SYNCED` and attempts only
it. -/
theorem uploadAttachment_duplicate_synced_halts_witness :
    uploadLoop envDupE 9 1 [raE]
      = (update 9 { raE with state := AttachmentState.SYNCED } [raE], ["a"]) :=
  (uploadAttachment_duplicate_synced_halts envDupE 9 raE [raE] 0
    (by decide) (by decide) rfl rfl).2

/-- C5: when the head upload candidate's remote upload fails for a
non-duplicate reason, the pass stops with only that record attempted, the
whole table — in particular the failing record's row, still in its queued
state — is unchanged, and the next trigger fetches the same head-of-queue
record again. -/
theorem uploadLoop_aborts_pass_on_failure (env : Env) (now : Nat)
    (r : AttachmentRecord) (t : Table) (fuel : Nat)
    (hr : getNextUploadRecord t = some r)
    (hfalsy : jsFalsy r.local_uri = false)
    (hread : env.readOk (r.local_uri.getD "") = true)
    (hfail : env.uploadResult r.filename = .failure) :
    uploadLoop env now (fuel + 1) t = (t, [r.id])
    ∧ rowById (uploadLoop env now (fuel + 1) t).1 r.id = rowById t r.id
    ∧ getNextUploadRecord (uploadLoop env now (fuel + 1) t).1 = some r := by
  have h1 : uploadAttachment env now r t
      = (Except.ok (false, t),
         [.readFile (r.local_uri.getD ""), .uploadFile r.filename]) := by
    unfold uploadAttachment
    rw [if_neg (by simp [hfalsy])]
    rw [if_pos hread, hfail]
  have h2 : uploadLoop env now (fuel + 1) t = (t, [r.id]) := by
    simp only [uploadLoop, hr, h1]
  exact ⟨h2, by rw [h2], by rw [h2]; exact hr⟩

/-- C5 witness: the abort statement instantiated at a single-candidate queue
whose upload fails — the table is unchanged and the same record heads the
queue afterwards. -/
theorem uploadLoop_aborts_pass_on_failure_witness :
    uploadLoop envFailE 9 1 [raE] = ([raE], ["a"])
    ∧ getNextUploadRecord (uploadLoop envFailE 9 1 [raE]).1 = some raE :=
  ⟨(uploadLoop_aborts_pass_on_failure envFailE 9 raE [raE] 0
      (by decide) (by decide) rfl rfl).1,
   (uploadLoop_aborts_pass_on_failure envFailE 9 raE [raE] 0
      (by decide) (by decide) rfl rfl).2.2⟩

theorem getLocalUri_ne_empty (filename : String) : getLocalUri filename ≠ "" := by
  intro h
  have h2 : (getLocalUri filename).length = 0 := by rw [h]; rfl
  rw [getLocalUri, String.length_append] at h2
  have h3 : (ATTACHMENT_STORAGE_PATH ++ "/").length = 36 := rfl
  omega

theorem effectiveUri_ne_empty (r : AttachmentRecord) : effectiveUri r ≠ "" := by
  unfold effectiveUri
  by_cases hf : jsFalsy r.local_uri = true
  · rw [if_pos hf]
    exact getLocalUri_ne_empty r.filename
  · rw [if_neg hf]
    cases hu : r.local_uri with
    | none => simp [jsFalsy, hu] at hf
    | some s =>
      have : ¬(s = "") := by simpa [jsFalsy, hu, beq_iff_eq] using hf
      simpa [hu] using this

theorem effectiveUri_downloadShortCircuit (now : Nat) (r : AttachmentRecord) :
    effectiveUri (downloadShortCircuit now r) = effectiveUri r := by
  have hne : effectiveUri r ≠ "" := effectiveUri_ne_empty r
  have hfalsy : jsFalsy (some (effectiveUri r)) = false := by
    simpa [jsFalsy, beq_iff_eq] using hne
  have hl : (downloadShortCircuit now r).local_uri = some (effectiveUri r) := by
    show (if jsFalsy (some (effectiveUri r)) = true then none
          else some (effectiveUri r)) = some (effectiveUri r)
    rw [hfalsy]
    simp
  show (if jsFalsy (downloadShortCircuit now r).local_uri = true
        then getLocalUri (downloadShortCircuit now r).filename
        else (downloadShortCircuit now r).local_uri.getD "") = effectiveUri r
  rw [hl, hfalsy]
  simp

theorem downloadShortCircuit_id (now : Nat) (r : AttachmentRecord) :
    (downloadShortCircuit now r).id = r.id :=
  rfl

theorem downloadRecord_exists_step (env : Env) (now : Nat)
    (r : AttachmentRecord) (t : Table) (hfile : effectiveUri r ∈ env.files) :
    downloadRecord env now r t
      = { ok := true, files := env.files,
          table := update now
            { r with local_uri := some (effectiveUri r), state := .SYNCED } t,
          calls := [.fileExistsQ (effectiveUri r), .updateRow r.id] } := by
  unfold downloadRecord
  rw [if_pos hfile]

/-- C7: when a record's file already exists locally at its effective
`local_uri` (derived from the filename when the stored one is falsy),
`downloadRecord` succeeds without issuing any `downloadFile` network call,
leaves the local file set unchanged, and rewrites the row to `SYNCED`; a
second call on the resulting row again issues no network call and again
yields a `SYNCED` row — the operation is idempotent. -/
theorem downloadRecord_idempotent_local_file (env : Env) (now now2 : Nat)
    (r : AttachmentRecord) (t : Table)
    (hfile : effectiveUri r ∈ env.files)
    (hfind : rowById t r.id = some r) :
    (downloadRecord env now r t).ok = true
    ∧ (∀ n, ExtCall.downloadFile n ∉ (downloadRecord env now r t).calls)
    ∧ (downloadRecord env now r t).files = env.files
    ∧ rowById (downloadRecord env now r t).table r.id
        = some (downloadShortCircuit now r)
    ∧ (downloadShortCircuit now r).state = .SYNCED
    ∧ (downloadRecord env now2 (downloadShortCircuit now r)
        (downloadRecord env now r t).table).ok = true
    ∧ (∀ n, ExtCall.downloadFile n
        ∉ (downloadRecord env now2 (downloadShortCircuit now r)
            (downloadRecord env now r t).table).calls)
    ∧ (rowById (downloadRecord env now2 (downloadShortCircuit now r)
        (downloadRecord env now r t).table).table r.id).map (fun s => s.state)
        = some AttachmentState.SYNCED := by
  have key1 := downloadRecord_exists_step env now r t hfile
  have hrow1 : rowById (downloadRecord env now r t).table r.id
      = some (downloadShortCircuit now r) := by
    rw [key1]
    exact rowById_update_self now
      { r with local_uri := some (effectiveUri r), state := .SYNCED } t r hfind
  have hfile2 : effectiveUri (downloadShortCircuit now r) ∈ env.files := by
    rw [effectiveUri_downloadShortCircuit]
    exact hfile
  have key2 := downloadRecord_exists_step env now2 (downloadShortCircuit now r)
    (downloadRecord env now r t).table hfile2
  have hfind2 : rowById (downloadRecord env now r t).table
      (downloadShortCircuit now r).id = some (downloadShortCircuit now r) := by
    rw [downloadShortCircuit_id]
    exact hrow1
  have hrow2 : rowById (downloadRecord env now2 (downloadShortCircuit now r)
      (downloadRecord env now r t).table).table (downloadShortCircuit now r).id
      = some (applyUpdate now2
          { downloadShortCircuit now r with
            local_uri := some (effectiveUri (downloadShortCircuit now r)),
            state := .SYNCED }
          (downloadShortCircuit now r)) := by
    rw [key2]
    exact rowById_update_self now2 _ _ _ hfind2
  refine ⟨by rw [key1], ?_, by rw [key1], hrow1, rfl, by rw [key2], ?_, ?_⟩
  · intro n
    rw [key1]
    simp
  · intro n
    rw [key2]
    simp
  · rw [downloadShortCircuit_id] at hrow2
    rw [hrow2]
    rfl

/-- C7 witness: the idempotence statement instantiated at a concrete
already-present file — both calls succeed with no fetch and a `SYNCED`
row. -/
theorem downloadRecord_idempotent_local_file_witness :
    (downloadRecord envC7 7 rdlC7 [rdlC7]).ok = true
    ∧ (∀ n, ExtCall.downloadFile n ∉ (downloadRecord envC7 7 rdlC7 [rdlC7]).calls)
    ∧ (rowById (downloadRecord envC7 8 (downloadShortCircuit 7 rdlC7)
        (downloadRecord envC7 7 rdlC7 [rdlC7]).table).table rdlC7.id).map
          (fun s => s.state) = some AttachmentState.SYNCED :=
  ⟨(downloadRecord_idempotent_local_file envC7 7 8 rdlC7 [rdlC7]
      (by decide) (by decide)).1,
   (downloadRecord_idempotent_local_file envC7 7 8 rdlC7 [rdlC7]
      (by decide) (by decide)).2.1,
   (downloadRecord_idempotent_local_file envC7 7 8 rdlC7 [rdlC7]
      (by decide) (by decide)).2.2.2.2.2.2.2⟩

theorem downloadRecord_fail_step (env : Env) (now : Nat)
    (r : AttachmentRecord) (t : Table)
    (hnf : effectiveUri r ∉ env.files)
    (hrem : env.remote r.filename = none) :
    downloadRecord env now r t
      = { ok := false, files := env.files, table := t,
          calls := [.fileExistsQ (effectiveUri r), .downloadFile r.filename] } := by
  unfold downloadRecord
  rw [if_neg hnf]
  simp only [hrem]

theorem downloadRecord_writeFail_step (env : Env) (now : Nat)
    (r : AttachmentRecord) (t : Table)
    (hnf : effectiveUri r ∉ env.files)
    (mt : String) (hrem : env.remote r.filename = some mt)
    (hwf : env.writeOk (effectiveUri r) = false) :
    downloadRecord env now r t
      = { ok := false, files := env.files, table := t,
          calls := [.fileExistsQ (effectiveUri r), .downloadFile r.filename,
                    .writeFile (effectiveUri r)] } := by
  unfold downloadRecord
  rw [if_neg hnf]
  simp only [hrem, hwf, Bool.false_eq_true, if_false]

theorem rowById_downloadRecord_of_ne (env : Env) (now : Nat)
    (r : AttachmentRecord) (t : Table) (i : String) (h : i ≠ r.id) :
    rowById (downloadRecord env now r t).table i = rowById t i := by
  unfold downloadRecord
  by_cases hf : effectiveUri r ∈ env.files
  · rw [if_pos hf]
    exact rowById_update_of_ne now _ t i h
  · rw [if_neg hf]
    cases hrem : env.remote r.filename with
    | none => rfl
    | some mt =>
      by_cases hw : env.writeOk (effectiveUri r) = true
      · simp only [hw, if_true]
        exact rowById_update_of_ne now _ t i h
      · simp only [Bool.not_eq_true] at hw
        simp only [hw, Bool.false_eq_true, if_false]

theorem downloadRecord_files_cases (env : Env) (now : Nat)
    (r : AttachmentRecord) (t : Table) :
    ∀ y ∈ (downloadRecord env now r t).files, y ∈ env.files ∨ y = effectiveUri r := by
  unfold downloadRecord
  by_cases hf : effectiveUri r ∈ env.files
  · rw [if_pos hf]
    exact fun y hy => Or.inl hy
  · rw [if_neg hf]
    cases hrem : env.remote r.filename with
    | none => exact fun y hy => Or.inl hy
    | some mt =>
      by_cases hw : env.writeOk (effectiveUri r) = true
      · simp only [hw, if_true]
        intro y hy
        rcases List.mem_cons.mp hy with h1 | h2
        · exact Or.inr h1
        · exact Or.inl h2
      · simp only [Bool.not_eq_true] at hw
        simp only [hw, Bool.false_eq_true, if_false]
        exact fun y hy => Or.inl hy

theorem downloadGo_processed (env : Env) (now : Nat)
    (l : List AttachmentRecord) (files : List String) (t : Table) :
    (downloadGo env now l files t).processed = l.map fun r => r.id := by
  induction l generalizing files t with
  | nil => rfl
  | cons r rs ih => simp [downloadGo, ih]

theorem rowById_downloadGo_of_ne (env : Env) (now : Nat)
    (l : List AttachmentRecord) (files : List String) (t : Table) (i : String)
    (h : ∀ s ∈ l, i ≠ s.id) :
    rowById (downloadGo env now l files t).table i = rowById t i := by
  induction l generalizing files t with
  | nil => rfl
  | cons r rs ih =>
    show rowById (downloadGo env now rs _ _).table i = rowById t i
    rw [ih _ _ fun s hs => h s (List.mem_cons_of_mem r hs)]
    exact rowById_downloadRecord_of_ne _ now r t i (h r (List.mem_cons_self r rs))

theorem downloadGo_files_subset (env : Env) (now : Nat)
    (l : List AttachmentRecord) (files : List String) (t : Table) :
    ∀ x ∈ (downloadGo env now l files t).files,
      x ∈ files ∨ ∃ s ∈ l, x = effectiveUri s := by
  induction l generalizing files t with
  | nil => exact fun x hx => Or.inl hx
  | cons r rs ih =>
    intro x hx
    have hx2 : x ∈ (downloadGo env now rs
        (downloadRecord { env with files := files } now r t).files
        (downloadRecord { env with files := files } now r t).table).files := hx
    rcases ih _ _ x hx2 with hx3 | ⟨s, hs, he⟩
    · rcases downloadRecord_files_cases { env with files := files } now r t x hx3
        with h1 | h2
      · exact Or.inl h1
      · exact Or.inr ⟨r, List.mem_cons_self r rs, h2⟩
    · exact Or.inr ⟨s, List.mem_cons_of_mem r hs, he⟩

theorem downloadGo_table_append (env : Env) (now : Nat)
    (l1 l2 : List AttachmentRecord) (files : List String) (t : Table) :
    (downloadGo env now (l1 ++ l2) files t).table
      = (downloadGo env now l2 (downloadGo env now l1 files t).files
          (downloadGo env now l1 files t).table).table := by
  induction l1 generalizing files t with
  | nil => rfl
  | cons r rs ih => simp [downloadGo, ih]

/-- C6: a download batch isolates failures per record — when the
fetch/decode/write of one candidate in the batch throws, either because the
remote fetch fails or because the local decode/write sequence fails (its
file being absent locally, and no earlier candidate writing to its path),
that record's row is left exactly as it was, while the pass still hands
every record of the batch, the ones after the failure included, to
`downloadRecord`. -/
theorem downloadRecords_isolates_failing_record (env : Env) (now : Nat)
    (t : Table) (l1 l2 : List AttachmentRecord) (r : AttachmentRecord)
    (hbatch : getNextDownloadRecords t = l1 ++ r :: l2)
    (hids : ∀ s ∈ l1 ++ l2, s.id ≠ r.id)
    (hnf : effectiveUri r ∉ env.files)
    (hw : ∀ s ∈ l1, effectiveUri s ≠ effectiveUri r)
    (hfail : env.remote r.filename = none
      ∨ env.writeOk (effectiveUri r) = false) :
    rowById (downloadRecords env now t).table r.id = rowById t r.id
    ∧ (downloadRecords env now t).processed
        = (getNextDownloadRecords t).map (fun s => s.id)
    ∧ r ∈ t ∧ downloadEligible r = true := by
  have hmem : r ∈ t ∧ downloadEligible r = true := by
    have h1 : r ∈ getNextDownloadRecords t := by
      rw [hbatch]
      exact List.mem_append_right l1 (List.mem_cons_self r l2)
    have h2 : r ∈ t.filter downloadEligible :=
      (List.perm_insertionSort tsLE (t.filter downloadEligible)).mem_iff.mp h1
    exact List.mem_filter.mp h2
  refine ⟨?_, ?_, hmem.1, hmem.2⟩
  · unfold downloadRecords
    rw [hbatch, downloadGo_table_append]
    have hm := downloadGo env now l1 env.files t
    have hrow1 : rowById (downloadGo env now l1 env.files t).table r.id
        = rowById t r.id :=
      rowById_downloadGo_of_ne env now l1 env.files t r.id
        fun s hs => (hids s (List.mem_append_left l2 hs)).symm
    have hnf2 : effectiveUri r ∉ (downloadGo env now l1 env.files t).files := by
      intro hmem2
      rcases downloadGo_files_subset env now l1 env.files t _ hmem2 with h1 | ⟨s, hs, he⟩
      · exact hnf h1
      · exact hw s hs he.symm
    have hstep : (downloadRecord
          { env with files := (downloadGo env now l1 env.files t).files } now r
          (downloadGo env now l1 env.files t).table).files
            = (downloadGo env now l1 env.files t).files
        ∧ (downloadRecord
          { env with files := (downloadGo env now l1 env.files t).files } now r
          (downloadGo env now l1 env.files t).table).table
            = (downloadGo env now l1 env.files t).table := by
      rcases hfail with hrem | hwf
      · rw [downloadRecord_fail_step
          { env with files := (downloadGo env now l1 env.files t).files } now r
          (downloadGo env now l1 env.files t).table hnf2 hrem]
        exact ⟨rfl, rfl⟩
      · cases hrem2 : env.remote r.filename with
        | none =>
          rw [downloadRecord_fail_step
            { env with files := (downloadGo env now l1 env.files t).files } now r
            (downloadGo env now l1 env.files t).table hnf2 hrem2]
          exact ⟨rfl, rfl⟩
        | some mt =>
          rw [downloadRecord_writeFail_step
            { env with files := (downloadGo env now l1 env.files t).files } now r
            (downloadGo env now l1 env.files t).table hnf2 mt hrem2 hwf]
          exact ⟨rfl, rfl⟩
    show rowById (downloadGo env now (r :: l2) _ _).table r.id = rowById t r.id
    show rowById (downloadGo env now l2
        (downloadRecord _ now r _).files (downloadRecord _ now r _).table).table r.id
      = rowById t r.id
    rw [hstep.1, hstep.2]
    have hrow2 := rowById_downloadGo_of_ne env now l2
      (downloadGo env now l1 env.files t).files
      (downloadGo env now l1 env.files t).table r.id
      fun s hs => (hids s (List.mem_append_right l1 hs)).symm
    rw [hrow2]
    exact hrow1
  · unfold downloadRecords
    rw [downloadGo_processed]

/-- C6 witness: the isolation statement instantiated twice at a
three-record batch — once with the middle record's remote fetch throwing,
once with its local decode/write throwing — in both runs its row is
unchanged and all three records were processed. -/
theorem downloadRecords_isolates_failing_record_witness :
    (rowById (downloadRecords envC6 5 tblC6).table rdFC6.id
        = rowById tblC6 rdFC6.id
      ∧ (downloadRecords envC6 5 tblC6).processed
          = (getNextDownloadRecords tblC6).map (fun s => s.id)
      ∧ rdFC6 ∈ tblC6 ∧ downloadEligible rdFC6 = true)
    ∧ (rowById (downloadRecords envC6w 5 tblC6).table rdFC6.id
        = rowById tblC6 rdFC6.id
      ∧ (downloadRecords envC6w 5 tblC6).processed
          = (getNextDownloadRecords tblC6).map (fun s => s.id)
      ∧ rdFC6 ∈ tblC6 ∧ downloadEligible rdFC6 = true) :=
  ⟨downloadRecords_isolates_failing_record envC6 5 tblC6 [rd1C6] [rd3C6] rdFC6
     (by decide) (by decide) (by decide) (by decide) (by decide),
   downloadRecords_isolates_failing_record envC6w 5 tblC6 [rd1C6] [rd3C6] rdFC6
     (by decide) (by decide) (by decide) (by decide) (by decide)⟩

/-- C8: the upload-candidate query yields only records of the table with
non-null `local_uri` and state `QUEUED_UPLOAD` or `QUEUED_SYNC`, and — being
ordered by `timestamp` ascending — its first row is timestamp-minimal among
all eligible rows; the download-candidate query yields exactly the records
with state `QUEUED_DOWNLOAD` or `QUEUED_SYNC`, ordered by `timestamp`
ascending; consequently a `SYNCED` record appears in neither result and a
null-`local_uri` record is never an upload candidate. -/
theorem candidate_queries_spec (t : Table) :
    (∀ r, getNextUploadRecord t = some r →
        r ∈ t ∧ r.local_uri ≠ none
        ∧ (r.state = .QUEUED_UPLOAD ∨ r.state = .QUEUED_SYNC)
        ∧ ∀ s ∈ t, uploadEligible s = true → r.timestamp ≤ s.timestamp)
    ∧ (∀ r, r ∈ getNextDownloadRecords t
        ↔ r ∈ t ∧ (r.state = .QUEUED_DOWNLOAD ∨ r.state = .QUEUED_SYNC))
    ∧ List.Sorted tsLE (getNextDownloadRecords t)
    ∧ (∀ r, r.state = .SYNCED →
        getNextUploadRecord t ≠ some r ∧ r ∉ getNextDownloadRecords t)
    ∧ (∀ r, r.local_uri = none → getNextUploadRecord t ≠ some r) := by
  have hupPerm : List.Perm (sortByTsAsc (t.filter uploadEligible))
      (t.filter uploadEligible) :=
    List.perm_insertionSort tsLE (t.filter uploadEligible)
  have hdlPerm : List.Perm (getNextDownloadRecords t)
      (t.filter downloadEligible) :=
    List.perm_insertionSort tsLE (t.filter downloadEligible)
  have h1 : ∀ r, getNextUploadRecord t = some r →
      r ∈ t ∧ r.local_uri ≠ none
      ∧ (r.state = .QUEUED_UPLOAD ∨ r.state = .QUEUED_SYNC)
      ∧ ∀ s ∈ t, uploadEligible s = true → r.timestamp ≤ s.timestamp := by
    intro r hr
    unfold getNextUploadRecord at hr
    cases hL : sortByTsAsc (t.filter uploadEligible) with
    | nil => rw [hL] at hr; exact absurd hr (by simp)
    | cons a rest =>
      rw [hL] at hr
      have har : a = r := by simpa using hr
      subst har
      have hmemL : a ∈ sortByTsAsc (t.filter uploadEligible) := by
        rw [hL]; exact List.mem_cons_self a rest
      have hmemF : a ∈ t.filter uploadEligible := hupPerm.mem_iff.mp hmemL
      obtain ⟨hmemT, helig⟩ := List.mem_filter.mp hmemF
      have hsorted : List.Sorted tsLE (sortByTsAsc (t.filter uploadEligible)) :=
        List.sorted_insertionSort tsLE (t.filter uploadEligible)
      rw [hL] at hsorted
      have hpair := (List.sorted_cons.mp hsorted).1
      have hsplit := helig
      unfold uploadEligible at hsplit
      rw [Bool.and_eq_true, Bool.or_eq_true] at hsplit
      have huri : a.local_uri ≠ none :=
        Option.ne_none_iff_isSome.mpr hsplit.1
      have hstate : a.state = .QUEUED_UPLOAD ∨ a.state = .QUEUED_SYNC := by
        rcases hsplit.2 with h | h
        · exact Or.inl (by simpa [beq_iff_eq] using h)
        · exact Or.inr (by simpa [beq_iff_eq] using h)
      refine ⟨hmemT, huri, hstate, ?_⟩
      intro s hs hse
      have hsF : s ∈ t.filter uploadEligible := List.mem_filter.mpr ⟨hs, hse⟩
      have hsL : s ∈ sortByTsAsc (t.filter uploadEligible) := hupPerm.mem_iff.mpr hsF
      rw [hL] at hsL
      rcases List.mem_cons.mp hsL with h | h
      · rw [h]
      · exact hpair s h
  have h2 : ∀ r, r ∈ getNextDownloadRecords t
      ↔ r ∈ t ∧ (r.state = .QUEUED_DOWNLOAD ∨ r.state = .QUEUED_SYNC) := by
    intro r
    rw [hdlPerm.mem_iff, List.mem_filter]
    constructor
    · rintro ⟨hmem, helig⟩
      refine ⟨hmem, ?_⟩
      unfold downloadEligible at helig
      rw [Bool.or_eq_true] at helig
      rcases helig with h | h
      · exact Or.inl (by simpa [beq_iff_eq] using h)
      · exact Or.inr (by simpa [beq_iff_eq] using h)
    · rintro ⟨hmem, hstate⟩
      refine ⟨hmem, ?_⟩
      unfold downloadEligible
      rcases hstate with h | h <;> simp [h]
  refine ⟨h1, h2, List.sorted_insertionSort tsLE (t.filter downloadEligible),
    ?_, ?_⟩
  · intro r hsync
    constructor
    · intro heq
      rcases (h1 r heq).2.2.1 with h | h <;> rw [hsync] at h <;> exact absurd h (by decide)
    · intro hmem
      rcases ((h2 r).mp hmem).2 with h | h <;> rw [hsync] at h <;> exact absurd h (by decide)
  · intro r huri heq
    exact absurd huri (h1 r heq).2.1

/-- C8 witness: the query characterization instantiated at a concrete table
— the synced row is returned by neither query, and the null-`local_uri` row
is returned only by the download query. -/
theorem candidate_queries_spec_witness :
    (getNextUploadRecord twC8 ≠ some srecC8
      ∧ srecC8 ∉ getNextDownloadRecords twC8)
    ∧ getNextUploadRecord twC8 ≠ some qrecC8
    ∧ qrecC8 ∈ getNextDownloadRecords twC8 :=
  ⟨(candidate_queries_spec twC8).2.2.2.1 srecC8 (by decide),
   (candidate_queries_spec twC8).2.2.2.2 qrecC8 (by decide),
   ((candidate_queries_spec twC8).2.1 qrecC8).mpr (by decide)⟩

theorem mem_take_sorted_desc (L : List AttachmentRecord) :
    List.Sorted tsGE L → ((L.map fun r => r.timestamp).Nodup) →
    ∀ (k : Nat) (r : AttachmentRecord),
      (r ∈ L.take k
        ↔ r ∈ L ∧ (L.countP fun s => decide (r.timestamp < s.timestamp)) < k) := by
  induction L with
  | nil =>
    intro _ _ k r
    simp
  | cons a L ih =>
    intro hs hn k r
    have hpair := (List.sorted_cons.mp hs).1
    have hs2 := (List.sorted_cons.mp hs).2
    rw [List.map_cons, List.nodup_cons] at hn
    obtain ⟨hna, hn2⟩ := hn
    have IH := ih hs2 hn2
    have hcount : ∀ x : AttachmentRecord, x ∈ L →
        ((a :: L).countP fun s => decide (x.timestamp < s.timestamp))
          = (L.countP fun s => decide (x.timestamp < s.timestamp)) + 1 := by
      intro x hx
      have hlt : x.timestamp < a.timestamp := by
        have hle : x.timestamp ≤ a.timestamp := hpair x hx
        have hne : x.timestamp ≠ a.timestamp := by
          intro he
          exact hna (he ▸ List.mem_map_of_mem (fun r => r.timestamp) hx)
        exact Nat.lt_of_le_of_ne hle hne
      rw [List.countP_cons]
      simp [hlt]
    cases k with
    | zero => simp
    | succ k =>
      rw [List.take_succ_cons]
      constructor
      · intro hmem
        rcases List.mem_cons.mp hmem with heq | hmem2
        · subst heq
          refine ⟨List.mem_cons_self r L, ?_⟩
          have hz : (L.countP fun s => decide (r.timestamp < s.timestamp)) = 0 := by
            rw [List.countP_eq_zero]
            intro b hb
            simp only [decide_eq_true_eq]
            exact Nat.not_lt.mpr (hpair b hb)
          rw [List.countP_cons, hz]
          simp
        · obtain ⟨hmemL, hc⟩ := (IH k r).mp hmem2
          refine ⟨List.mem_cons_of_mem a hmemL, ?_⟩
          rw [hcount r hmemL]
          omega
      · rintro ⟨hmem, hc⟩
        rcases List.mem_cons.mp hmem with heq | hmemL
        · subst heq
          exact List.mem_cons_self r (L.take k)
        · refine List.mem_cons_of_mem a ((IH k r).mpr ⟨hmemL, ?_⟩)
          rw [hcount r hmemL] at hc
          omega

theorem mem_drop_sorted_desc (L : List AttachmentRecord)
    (hs : List.Sorted tsGE L) (hn : (L.map fun r => r.timestamp).Nodup)
    (k : Nat) (r : AttachmentRecord) :
    r ∈ L.drop k
      ↔ r ∈ L ∧ k ≤ L.countP fun s => decide (r.timestamp < s.timestamp) := by
  have hnodup : L.Nodup := List.Nodup.of_map _ hn
  have hsplit : L.take k ++ L.drop k = L := List.take_append_drop k L
  have hd : List.Disjoint (L.take k) (L.drop k) := by
    have h2 : (L.take k ++ L.drop k).Nodup := by rw [hsplit]; exact hnodup
    exact (List.nodup_append.mp h2).2.2
  constructor
  · intro hmem
    have hmemL : r ∈ L := List.drop_subset k L hmem
    refine ⟨hmemL, ?_⟩
    by_contra hc
    rw [Nat.not_le] at hc
    have hint : r ∈ L.take k := (mem_take_sorted_desc L hs hn k r).mpr ⟨hmemL, hc⟩
    exact (List.disjoint_left.mp hd hint) hmem
  · rintro ⟨hmemL, hc⟩
    have hmem2 : r ∈ L.take k ++ L.drop k := by rw [hsplit]; exact hmemL
    rcases List.mem_append.mp hmem2 with h1 | h2
    · have h3 := ((mem_take_sorted_desc L hs hn k r).mp h1).2
      omega
    · exact h2

theorem moreRecentSyncedCount_eq_countP (t : Table) (x : AttachmentRecord) :
    moreRecentSyncedCount t x
      = (sortByTsDesc (t.filter fun r => r.state == .SYNCED)).countP
          fun s => decide (x.timestamp < s.timestamp) := by
  have hperm : List.Perm (sortByTsDesc (t.filter fun r => r.state == .SYNCED))
      (t.filter fun r => r.state == .SYNCED) :=
    List.perm_insertionSort tsGE (t.filter fun r => r.state == .SYNCED)
  rw [hperm.countP_eq, List.countP_filter]
  unfold moreRecentSyncedCount
  rw [← List.countP_eq_length_filter]
  apply List.countP_congr
  intro y _
  rw [Bool.and_comm]

theorem expireCache_eq (cacheLimit : Nat) (t : Table) :
    expireCache cacheLimit t
      = if (querySyncedBeyondLimit cacheLimit t).length = 0 then (t, [])
        else
          (t.filter fun r =>
            decide (r.id ∉ (querySyncedBeyondLimit cacheLimit t).map fun s => s.id),
           (querySyncedBeyondLimit cacheLimit t).map deleteFilePath) :=
  rfl

theorem mem_querySyncedBeyondLimit (cacheLimit : Nat) (t : Table)
    (hts : ((t.filter fun r => r.state == .SYNCED).map fun r => r.timestamp).Nodup)
    (hcount : (t.filter fun r => r.state == .SYNCED).length ≤ cacheLimit + 100)
    (r : AttachmentRecord) :
    r ∈ querySyncedBeyondLimit cacheLimit t
      ↔ r ∈ t ∧ r.state = .SYNCED ∧ cacheLimit ≤ moreRecentSyncedCount t r := by
  have hperm : List.Perm (sortByTsDesc (t.filter fun r => r.state == .SYNCED))
      (t.filter fun r => r.state == .SYNCED) :=
    List.perm_insertionSort tsGE (t.filter fun r => r.state == .SYNCED)
  have hsorted : List.Sorted tsGE (sortByTsDesc (t.filter fun r => r.state == .SYNCED)) :=
    List.sorted_insertionSort tsGE (t.filter fun r => r.state == .SYNCED)
  have hnL : ((sortByTsDesc (t.filter fun r => r.state == .SYNCED)).map
      fun r => r.timestamp).Nodup :=
    (hperm.map fun r => r.timestamp).nodup_iff.mpr hts
  have hlen : (sortByTsDesc (t.filter fun r => r.state == .SYNCED)).length
      = (t.filter fun r => r.state == .SYNCED).length := hperm.length_eq
  have hseleq : querySyncedBeyondLimit cacheLimit t
      = (sortByTsDesc (t.filter fun r => r.state == .SYNCED)).drop cacheLimit := by
    unfold querySyncedBeyondLimit
    apply List.take_of_length_le
    rw [List.length_drop, hlen]
    omega
  rw [hseleq, mem_drop_sorted_desc _ hsorted hnL cacheLimit r,
    moreRecentSyncedCount_eq_countP]
  constructor
  · rintro ⟨hmemL, hc⟩
    obtain ⟨hmemT, hsync⟩ := List.mem_filter.mp (hperm.mem_iff.mp hmemL)
    exact ⟨hmemT, by simpa [beq_iff_eq] using hsync, hc⟩
  · rintro ⟨hmemT, hsync, hc⟩
    exact ⟨hperm.mem_iff.mpr (List.mem_filter.mpr ⟨hmemT, by simp [hsync]⟩), hc⟩

/-- C2 counterexample: the eviction selection is capped by the SQL
`LIMIT 100`, so with `cacheLimit = 0` (a value the constructor keeps) and
101 `SYNCED` rows the pass deletes only the 100 most-recent-beyond-offset
rows and the single survivor is the OLDEST row — while the claim says every
synced record beyond the `cacheLimit` most recent (here: all 101) is
deleted. -/
theorem expireCache_limit_cap_cex :
    (mkQueue optsCache0).cacheLimit = 0
    ∧ (expireCache 0 cexTable).1 ≠ expireCacheSpec 0 cexTable
    ∧ ((expireCache 0 cexTable).1.map fun r => r.timestamp) = [0]
    ∧ expireCacheSpec 0 cexTable = [] := by
  refine ⟨rfl, ?_, ?_, ?_⟩ <;> decide

/-- C2 (amended): whenever the number of `SYNCED` rows is at most
`cacheLimit + 100` (so the SQL `LIMIT 100` cap does not bite; ids unique,
synced timestamps distinct), `expireCache` deletes exactly the synced
records beyond the `cacheLimit` most-recently-touched: the surviving table
is precisely the non-synced rows plus the `cacheLimit` most recent synced
rows, and the file paths deleted are exactly those of the evicted rows. In
particular the spec's 150-records/limit-100 scenario evicts exactly the 50
oldest. -/
theorem expireCache_evicts_beyond_limit (cacheLimit : Nat) (t : Table)
    (hids : (t.map fun r => r.id).Nodup)
    (hts : ((t.filter fun r => r.state == .SYNCED).map fun r => r.timestamp).Nodup)
    (hcount : (t.filter fun r => r.state == .SYNCED).length ≤ cacheLimit + 100) :
    (expireCache cacheLimit t).1 = expireCacheSpec cacheLimit t
    ∧ ∀ p, p ∈ (expireCache cacheLimit t).2
        ↔ ∃ r, r ∈ t ∧ r.state = .SYNCED
            ∧ cacheLimit ≤ moreRecentSyncedCount t r
            ∧ p = deleteFilePath r := by
  have hsel := mem_querySyncedBeyondLimit cacheLimit t hts hcount
  have hid_mem : ∀ r ∈ t,
      ((r.id ∈ (querySyncedBeyondLimit cacheLimit t).map fun s => s.id)
        ↔ r ∈ querySyncedBeyondLimit cacheLimit t) := by
    intro r hr
    constructor
    · intro hmem
      obtain ⟨s, hsmem, hsid⟩ := List.mem_map.mp hmem
      have hsT : s ∈ t := ((hsel s).mp hsmem).1
      have heq := List.inj_on_of_nodup_map hids hsT hr hsid
      exact heq ▸ hsmem
    · intro hmem
      exact List.mem_map_of_mem _ hmem
  constructor
  · rw [expireCache_eq]
    by_cases hempty : (querySyncedBeyondLimit cacheLimit t).length = 0
    · rw [if_pos hempty]
      unfold expireCacheSpec
      have hself : ∀ r ∈ t,
          (!(r.state == AttachmentState.SYNCED)
            || decide (moreRecentSyncedCount t r < cacheLimit)) = true := by
        intro r hr
        by_cases hsync : r.state = .SYNCED
        · have hnotmem : r ∉ querySyncedBeyondLimit cacheLimit t := by
            rw [List.length_eq_zero] at hempty
            rw [hempty]
            exact List.not_mem_nil r
          have hlt : moreRecentSyncedCount t r < cacheLimit := by
            by_contra hge
            rw [Nat.not_lt] at hge
            exact hnotmem ((hsel r).mpr ⟨hr, hsync, hge⟩)
          simp [hlt]
        · simp [hsync]
      exact (List.filter_eq_self.mpr hself).symm
    · rw [if_neg hempty]
      unfold expireCacheSpec
      apply List.filter_congr
      intro r hr
      have hiff : (r.id ∉ (querySyncedBeyondLimit cacheLimit t).map fun s => s.id)
          ↔ (¬ r.state = .SYNCED ∨ moreRecentSyncedCount t r < cacheLimit) := by
        constructor
        · intro hnot
          by_cases hsync : r.state = .SYNCED
          · right
            by_contra hge
            rw [Nat.not_lt] at hge
            exact hnot ((hid_mem r hr).mpr ((hsel r).mpr ⟨hr, hsync, hge⟩))
          · exact Or.inl hsync
        · intro hdisj hmem
          obtain ⟨_, hsync, hge⟩ := (hsel r).mp ((hid_mem r hr).mp hmem)
          rcases hdisj with h | h
          · exact h hsync
          · omega
      have hstep : (decide (r.id ∉ (querySyncedBeyondLimit cacheLimit t).map
            fun s => s.id))
          = decide (¬ r.state = .SYNCED ∨ moreRecentSyncedCount t r < cacheLimit) :=
        decide_eq_decide.mpr hiff
      rw [hstep, Bool.decide_or, decide_not]
      cases r.state <;> rfl
  · intro p
    rw [expireCache_eq]
    by_cases hempty : (querySyncedBeyondLimit cacheLimit t).length = 0
    · rw [if_pos hempty]
      simp only [List.not_mem_nil, false_iff]
      rintro ⟨r, hrT, hsync, hge, _⟩
      rw [List.length_eq_zero] at hempty
      have := (hsel r).mpr ⟨hrT, hsync, hge⟩
      rw [hempty] at this
      exact List.not_mem_nil r this
    · rw [if_neg hempty]
      simp only [List.mem_map]
      constructor
      · rintro ⟨s, hsmem, hp⟩
        obtain ⟨hsT, hsync, hge⟩ := (hsel s).mp hsmem
        exact ⟨s, hsT, hsync, hge, hp.symm⟩
      · rintro ⟨r, hrT, hsync, hge, hp⟩
        exact ⟨r, (hsel r).mpr ⟨hrT, hsync, hge⟩, hp.symm⟩

/-- C2 witness: the amended statement instantiated at the spec's scenario —
150 `SYNCED` rows and `cacheLimit = 100` — the pass leaves exactly the
non-synced rows plus the 100 most recent synced rows (here: the 100 most
recent of the 150). -/
theorem expireCache_evicts_beyond_limit_witness :
    (expireCache 100 tbl150).1 = expireCacheSpec 100 tbl150
    ∧ (expireCache 100 tbl150).1.length = 100 :=
  ⟨(expireCache_evicts_beyond_limit 100 tbl150
      (by decide) (by decide) (by decide)).1,
   by decide⟩

/-- C10: one `expireCache` pass deletes at most 100 rows — the selection is
capped by the SQL `LIMIT 100` — and whenever more than `cacheLimit + 100`
synced rows exist (ids unique, synced timestamps distinct), some synced row
beyond the `cacheLimit` most-recently-touched survives the pass
undeleted. -/
theorem expireCache_single_pass_cap (cacheLimit : Nat) (t : Table)
    (hids : (t.map fun r => r.id).Nodup) :
    t.length - (expireCache cacheLimit t).1.length ≤ 100
    ∧ ((((t.filter fun r => r.state == .SYNCED).map fun r => r.timestamp).Nodup) →
        cacheLimit + 100 < (t.filter fun r => r.state == .SYNCED).length →
        ∃ r, r ∈ (expireCache cacheLimit t).1 ∧ r.state = .SYNCED
          ∧ cacheLimit ≤ moreRecentSyncedCount t r) := by
  have hselsub : ∀ s ∈ querySyncedBeyondLimit cacheLimit t, s ∈ t := by
    intro s hs
    have h1 : s ∈ (sortByTsDesc (t.filter fun r => r.state == .SYNCED)).drop cacheLimit :=
      List.take_subset 100 _ hs
    have h2 : s ∈ sortByTsDesc (t.filter fun r => r.state == .SYNCED) :=
      List.drop_subset cacheLimit _ h1
    have h3 : s ∈ t.filter fun r => r.state == .SYNCED :=
      (List.perm_insertionSort tsGE _).mem_iff.mp h2
    exact (List.mem_filter.mp h3).1
  constructor
  · rw [expireCache_eq]
    by_cases hempty : (querySyncedBeyondLimit cacheLimit t).length = 0
    · rw [if_pos hempty]
      simp
    · rw [if_neg hempty]
      have hlensplit := List.length_eq_length_filter_add
        (l := t) (fun r => decide (r.id ∉ (querySyncedBeyondLimit cacheLimit t).map
          fun s => s.id))
      have hcongr : (t.filter fun r =>
            !(decide (r.id ∉ (querySyncedBeyondLimit cacheLimit t).map fun s => s.id)))
          = t.filter fun r =>
            decide (r.id ∈ (querySyncedBeyondLimit cacheLimit t).map fun s => s.id) := by
        apply List.filter_congr
        intro r _
        rw [decide_not, Bool.not_not]
      have hdel : (t.filter fun r =>
          decide (r.id ∈ (querySyncedBeyondLimit cacheLimit t).map
            fun s => s.id)).length ≤ 100 := by
        have hsubl : ((t.filter fun r =>
              decide (r.id ∈ (querySyncedBeyondLimit cacheLimit t).map fun s => s.id)).map
                fun r => r.id).Sublist (t.map fun r => r.id) :=
          (List.filter_sublist t).map fun r => r.id
        have hnodupD := List.Nodup.sublist hsubl hids
        have hsubset : ((t.filter fun r =>
              decide (r.id ∈ (querySyncedBeyondLimit cacheLimit t).map fun s => s.id)).map
                fun r => r.id)
            ⊆ (querySyncedBeyondLimit cacheLimit t).map fun s => s.id := by
          intro x hx
          obtain ⟨r, hrmem, hrid⟩ := List.mem_map.mp hx
          have hpred := (List.mem_filter.mp hrmem).2
          rw [decide_eq_true_eq] at hpred
          exact hrid ▸ hpred
        have hle := (List.subperm_of_subset hnodupD hsubset).length_le
        rw [List.length_map, List.length_map] at hle
        have hsel100 : (querySyncedBeyondLimit cacheLimit t).length ≤ 100 :=
          List.length_take_le 100 _
        omega
      rw [hcongr] at hlensplit
      simp only
      omega
  · intro hts hover
    have hperm : List.Perm (sortByTsDesc (t.filter fun r => r.state == .SYNCED))
        (t.filter fun r => r.state == .SYNCED) :=
      List.perm_insertionSort tsGE (t.filter fun r => r.state == .SYNCED)
    have hsorted : List.Sorted tsGE
        (sortByTsDesc (t.filter fun r => r.state == .SYNCED)) :=
      List.sorted_insertionSort tsGE (t.filter fun r => r.state == .SYNCED)
    have hnL : ((sortByTsDesc (t.filter fun r => r.state == .SYNCED)).map
        fun r => r.timestamp).Nodup :=
      (hperm.map fun r => r.timestamp).nodup_iff.mpr hts
    have hlen : (sortByTsDesc (t.filter fun r => r.state == .SYNCED)).length
        = (t.filter fun r => r.state == .SYNCED).length := hperm.length_eq
    have hlen2 : 0 < ((sortByTsDesc (t.filter fun r => r.state == .SYNCED)).drop
        (cacheLimit + 100)).length := by
      rw [List.length_drop, hlen]
      omega
    obtain ⟨x, hx⟩ := List.exists_mem_of_ne_nil _ (List.length_pos.mp hlen2)
    have hxL : x ∈ sortByTsDesc (t.filter fun r => r.state == .SYNCED) :=
      List.drop_subset (cacheLimit + 100) _ hx
    obtain ⟨hxT, hxsyncb⟩ := List.mem_filter.mp (hperm.mem_iff.mp hxL)
    have hxsync : x.state = .SYNCED := by simpa [beq_iff_eq] using hxsyncb
    have hxc : cacheLimit + 100
        ≤ (sortByTsDesc (t.filter fun r => r.state == .SYNCED)).countP
            fun s => decide (x.timestamp < s.timestamp) :=
      ((mem_drop_sorted_desc _ hsorted hnL (cacheLimit + 100) x).mp hx).2
    have hxcnt : cacheLimit ≤ moreRecentSyncedCount t x := by
      rw [moreRecentSyncedCount_eq_countP]
      omega
    have hxnotsel : x ∉ querySyncedBeyondLimit cacheLimit t := by
      intro hmem
      have hnodupL : (sortByTsDesc (t.filter fun r => r.state == .SYNCED)).Nodup :=
        List.Nodup.of_map _ hnL
      have hnodupD : ((sortByTsDesc (t.filter fun r => r.state == .SYNCED)).drop
          cacheLimit).Nodup :=
        List.Nodup.sublist (List.drop_sublist cacheLimit _) hnodupL
      have hxdrop2 : x ∈ ((sortByTsDesc (t.filter fun r => r.state == .SYNCED)).drop
          cacheLimit).drop 100 := by
        rw [List.drop_drop]
        exact hx
      have hsplit := List.take_append_drop 100
        ((sortByTsDesc (t.filter fun r => r.state == .SYNCED)).drop cacheLimit)
      have hnodupApp : ((((sortByTsDesc (t.filter fun r => r.state == .SYNCED)).drop
          cacheLimit).take 100)
            ++ (((sortByTsDesc (t.filter fun r => r.state == .SYNCED)).drop
          cacheLimit).drop 100)).Nodup := by
        rw [hsplit]
        exact hnodupD
      exact (List.disjoint_left.mp (List.nodup_append.mp hnodupApp).2.2) hmem hxdrop2
    have hxid : x.id ∉ (querySyncedBeyondLimit cacheLimit t).map fun s => s.id := by
      intro hmem
      obtain ⟨s, hsmem, hsid⟩ := List.mem_map.mp hmem
      have heq := List.inj_on_of_nodup_map hids (hselsub s hsmem) hxT hsid
      exact hxnotsel (heq ▸ hsmem)
    have hselne : ¬(querySyncedBeyondLimit cacheLimit t).length = 0 := by
      unfold querySyncedBeyondLimit
      rw [List.length_take, List.length_drop, hlen]
      omega
    refine ⟨x, ?_, hxsync, hxcnt⟩
    rw [expireCache_eq, if_neg hselne]
    simp only
    exact List.mem_filter.mpr ⟨hxT, by simpa using hxid⟩

/-- C10 witness: the cap statement instantiated at 101 synced rows with
`cacheLimit = 0` — at most 100 rows are deleted and a beyond-limit synced
row survives. -/
theorem expireCache_single_pass_cap_witness :
    cexTable.length - (expireCache 0 cexTable).1.length ≤ 100
    ∧ ∃ r, r ∈ (expireCache 0 cexTable).1 ∧ r.state = .SYNCED
        ∧ 0 ≤ moreRecentSyncedCount cexTable r :=
  ⟨(expireCache_single_pass_cap 0 cexTable (by decide)).1,
   (expireCache_single_pass_cap 0 cexTable (by decide)).2 (by decide) (by decide)⟩
